import Mathlib

/-!
Verification development for the Web-Price-Tracker repository.

The price-text parsing pipeline of `src/scraper.py` (class `PriceProcessor`
and its subclass `AdvancedPriceProcessor`), the competing number cleaner of
`src/data_manager.py` (class `AdvancedPriceProcessor` there), the
`ProductInfo` dataclass serialization, and the analysis layer described by
the specification are embedded as executable Lean definitions over
`List Char` (Python strings) and `ℚ` (Python floats; every numeric literal
involved is a finite decimal, so rational arithmetic mirrors the Python
computations exactly on the inputs considered).
-/

/-- Python `str.strip()` whitespace characters. -/
def wsChar (c : Char) : Bool :=
  c = ' ' || c = '\t' || c = '\n' || c = '\r' || c = '\x0b' || c = '\x0c'

/-- Python `text.strip()`: drop leading and trailing whitespace. -/
def stripWs (s : List Char) : List Char :=
  ((s.dropWhile wsChar).reverse.dropWhile wsChar).reverse

/-- The character class of the regex `[\d,.]` used throughout `scraper.py`
(ASCII digits, dot, comma). -/
def isSepDigit (c : Char) : Bool := c.isDigit || c = '.' || c = ','

/-- Count occurrences of a character, modelling Python `str.count`. -/
def countCh (c : Char) : List Char → Nat
  | [] => 0
  | a :: rest => (if a = c then 1 else 0) + countCh c rest

/-- Python `str.rfind`: index of the last occurrence, `-1` if absent. -/
def rfindI (c : Char) : List Char → Int
  | [] => -1
  | a :: rest =>
    let r := rfindI c rest
    if r ≥ 0 then r + 1 else if a = c then 0 else -1

/-- Worker for `replaceAll`, structurally recursive on a fuel argument
(the fuel is always the length of the scanned list, so the `0, _ :: _`
case is unreachable). -/
def replaceAllGo (pat rep : List Char) : Nat → List Char → List Char
  | _, [] => []
  | 0, s => s
  | fuel + 1, c :: rest =>
    if pat ≠ [] ∧ (c :: rest).take pat.length = pat then
      rep ++ replaceAllGo pat rep fuel ((c :: rest).drop pat.length)
    else
      c :: replaceAllGo pat rep fuel rest

/-- Python `str.replace(pat, rep)`: leftmost, non-overlapping replacement of
every occurrence.  (All call sites in the repository use a non-empty `pat`.) -/
def replaceAll (s pat rep : List Char) : List Char :=
  replaceAllGo pat rep s.length s

/-- Python `text.split(sep)` for a single-character separator:
splits at every occurrence, keeping empty chunks, never returning `[]`. -/
def splitOnChar (sep : Char) : List Char → List (List Char)
  | [] => [[]]
  | c :: rest =>
    let r := splitOnChar sep rest
    if c = sep then [] :: r
    else (c :: r.headD []) :: r.tail

/-- `re.search(r"[\d,.]+", text)`: the first maximal run of digits, `.` and
`,`, if any. -/
def firstRun : List Char → Option (List Char)
  | [] => none
  | c :: rest =>
    if isSepDigit c then some (c :: rest.takeWhile isSepDigit) else firstRun rest

/-- Worker for `findallRuns` (fuel-totalized; fuel = length of the list). -/
def findallGo (p : Char → Bool) : Nat → List Char → List (List Char)
  | _, [] => []
  | 0, _ => []
  | fuel + 1, c :: rest =>
    if p c then (c :: rest.takeWhile p) :: findallGo p fuel (rest.dropWhile p)
    else findallGo p fuel rest

/-- `re.findall(r"[\d,.]+", text)`: every maximal run of the class. -/
def findallRuns (p : Char → Bool) (s : List Char) : List (List Char) :=
  findallGo p s.length s

/-- Numeric value of a digit string (left fold, as positional decimal). -/
def digitsValAux (acc : Nat) : List Char → Nat
  | [] => acc
  | c :: rest => digitsValAux (acc * 10 + (c.toNat - 48)) rest

def digitsVal (s : List Char) : Nat := digitsValAux 0 s

def allDigits (s : List Char) : Bool := s.all Char.isDigit

/-- Python `float(s)` restricted to strings of ASCII digits and `.` — the
only strings the embedded call sites feed it: in `scraper.py` the argument
has been filtered to `[\d.,]` and all commas removed or rewritten to dots,
and the `data_manager.py` theorems below restrict their inputs likewise.
Accepts `ddd`, `ddd.ddd`, `.ddd`, `ddd.`; rejects the empty string, a lone
dot, and anything with two or more dots or a non-digit character
(where CPython raises `ValueError`, this returns `none`). -/
def pyFloat? (s : List Char) : Option ℚ :=
  match splitOnChar '.' s with
  | [a] => if a ≠ [] ∧ allDigits a then some (mkRat (digitsVal a) 1) else none
  | [a, b] =>
    if (a ≠ [] ∨ b ≠ []) ∧ allDigits a ∧ allDigits b then
      some (mkRat (digitsVal a * 10 ^ b.length + digitsVal b) (10 ^ b.length))
    else none
  | _ => none

/-- `PriceProcessor._clean_number` (src/scraper.py:345-372):
strip, delete everything outside `[\d.,]`, (no-op) currency replacements,
separator disambiguation, conversion.  Returns `none` where the Python
returns `None` (unconvertible remainder). -/
def cleanNumber (text : List Char) : Option ℚ :=
  let t := stripWs text
  let cleaned := t.filter isSepDigit
  let cleaned := replaceAll cleaned ['₺'] []
  let cleaned := replaceAll cleaned ['T', 'L'] []
  let cleaned := replaceAll cleaned ['$'] []
  let cleaned :=
    if countCh '.' cleaned > 0 ∧ countCh ',' cleaned > 0 then
      if rfindI '.' cleaned < rfindI ',' cleaned then
        replaceAll (replaceAll cleaned ['.'] []) [','] ['.']
      else
        replaceAll cleaned [','] []
    else if countCh ',' cleaned > 0 then
      replaceAll cleaned [','] ['.']
    else cleaned
  pyFloat? cleaned

/-- `PriceProcessor._extract_with_regex` (src/scraper.py:316-323):
`re.search(r"[\d,.]+", text)` then `_clean_number` on the match (`None`
when there is no match, and also when `_clean_number` fails). -/
def extractWithRegex (text : List Char) : Option ℚ :=
  match firstRun text with
  | some run => cleanNumber run
  | none => none

/-- `PriceProcessor._extract_with_split` (src/scraper.py:326-334):
iterates over `text.split(" ")` and `return`s `_clean_number(part)` for the
first part.  `_clean_number` never raises (it catches `ValueError` itself
and returns `None`), so the `except` branch is dead and the loop always
returns on its first iteration; Python `split` always yields at least one
part, so the trailing `return None` is only a type-level fallback. -/
def extractWithSplit (text : List Char) : Option ℚ :=
  match splitOnChar ' ' text with
  | [] => none
  | part :: _ => cleanNumber part

/-- `PriceProcessor._extract_with_findall` (src/scraper.py:337-342):
`re.findall(r"[\d,.]+", text)` and `_clean_number` on the first hit. -/
def extractWithFindall (text : List Char) : Option ℚ :=
  match findallRuns isSepDigit text with
  | [] => none
  | run :: _ => cleanNumber run

/-- `PriceProcessor.process_price` (src/scraper.py:294-313): tries the three
extraction strategies in order, returns the first non-`None` result, and
multiplies by `1 - discount/100` only when `discount > 0`. -/
def processPriceL (text : List Char) (discount : ℚ) : Option ℚ :=
  match extractWithRegex text with
  | some r => some (if discount > 0 then r * (1 - discount / 100) else r)
  | none =>
    match extractWithSplit text with
    | some r => some (if discount > 0 then r * (1 - discount / 100) else r)
    | none =>
      match extractWithFindall text with
      | some r => some (if discount > 0 then r * (1 - discount / 100) else r)
      | none => none

/-- `PriceProcessor.process_price` on a Lean `String`. -/
def processPrice (text : String) (discount : ℚ) : Option ℚ :=
  processPriceL text.toList discount

/-- `AdvancedPriceProcessor.process_price` (src/scraper.py:395-410):
pops `discount`, fetches the price from the superclass without a discount,
and applies `price * (1 - discount/100)` only when `discount > 0`. -/
def advProcessPriceL (text : List Char) (discount : ℚ) : Option ℚ :=
  match processPriceL text 0 with
  | some price => if discount > 0 then some (price * (1 - discount / 100)) else some price
  | none => none

/-- `AdvancedPriceProcessor.process_price` on a Lean `String`. -/
def advProcessPrice (text : String) (discount : ℚ) : Option ℚ :=
  advProcessPriceL text.toList discount

/-- `AdvancedPriceProcessor._clean_number` (src/data_manager.py:149-156):
replace every `,` by `.`, delete spaces, and if more than two dot-separated
parts remain, keep the first dot as the decimal point and concatenate the
rest; then `float(...)`.  The Python version raises `ValueError` on
unconvertible input (its caller catches it); that is modelled as `none`. -/
def dmCleanNumber (text : List Char) : Option ℚ :=
  let cleaned := replaceAll (replaceAll text [','] ['.']) [' '] []
  let parts := splitOnChar '.' cleaned
  let cleaned := if parts.length > 2 then parts.headD [] ++ '.' :: parts.tail.flatten else cleaned
  pyFloat? cleaned

/-- Modelled from the spec: `TrendDirection` of the missing `analyzer.py`
(only `src/Tests/test_analyzer.py` is in the repository), spec §3. -/
inductive TrendDirection
  | UP
  | DOWN
  | STABLE
  | VOLATILE
deriving DecidableEq

/-- Modelled from the spec: `AlertLevel` of the missing `analyzer.py`, spec §3. -/
inductive AlertLevel
  | CRITICAL_DROP
  | GOOD_DEAL
  | FAIR_PRICE
  | SLIGHT_INCREASE
  | OVERPRICED
deriving DecidableEq

/-- Modelled from the spec: `PriceAnalyzer._determine_alert_level` of the
missing `analyzer.py`, following the threshold ladder of spec §4.4
(first match wins; the FAIR_PRICE band is "within 10% of `average_price`"). -/
def determineAlertLevel (changePercent currentPrice averagePrice
    minimumPrice maximumPrice : ℚ) : AlertLevel :=
  if changePercent ≤ -20 then .CRITICAL_DROP
  else if changePercent ≤ -10 then .GOOD_DEAL
  else if |changePercent| ≤ 5 ∧ |currentPrice - averagePrice| ≤ averagePrice * (10 / 100) then
    .FAIR_PRICE
  else if changePercent ≥ 20 then .OVERPRICED
  else .SLIGHT_INCREASE

/-- Arithmetic mean (Lean's `q / 0 = 0` makes the empty case total). -/
def listMean (l : List ℚ) : ℚ := l.sum / l.length

/-- The most recent `n` prices of a chronological list. -/
def lastN (n : Nat) (l : List ℚ) : List ℚ := l.drop (l.length - n)

/-- Modelled from the spec: direction part of `MovingAverageStrategy`
(missing `analyzer.py`), spec §4.3: compare the short-window mean with the
long-window mean via `d = (short - long) / long` against a small margin. -/
def maDirection (shortW longW : Nat) (margin : ℚ) (prices : List ℚ) : TrendDirection :=
  let shortMean := listMean (lastN shortW prices)
  let longMean := listMean (lastN longW prices)
  let d := (shortMean - longMean) / longMean
  if d > margin then .UP else if d < -margin then .DOWN else .STABLE

/-- Modelled from the spec: direction part of `PercentageChangeStrategy`
(missing `analyzer.py`), spec §4.3: percent change between first and last
price against `threshold_percent`. -/
def pctDirection (thresholdPercent : ℚ) (prices : List ℚ) : TrendDirection :=
  match prices with
  | [] => .STABLE
  | first :: rest =>
    let lastP := (first :: rest).getLastD first
    let c := (lastP - first) / first * 100
    if c > thresholdPercent then .UP
    else if c < -thresholdPercent then .DOWN
    else .STABLE

/-- Sample variance (denominator `n - 1`), the square of the spec's sample
standard deviation. -/
def sampleVar (l : List ℚ) : ℚ :=
  let m := listMean l
  (l.map fun x => (x - m) ^ 2).sum / ((l.length : ℚ) - 1)

/-- Modelled from the spec: direction part of `VolatilityStrategy`
(missing `analyzer.py`), spec §4.3.  The spec compares the coefficient of
variation `CV = stddev / mean` with the threshold; for positive mean and
threshold this is equivalent to the square-root-free comparison
`variance > threshold² · mean²` used here.  Fewer than two points cannot
yield a sample deviation, so the minimum-length rule of §4.3 reports
STABLE. -/
def volDirection (volatilityThreshold : ℚ) (prices : List ℚ) : TrendDirection :=
  if prices.length < 2 then .STABLE
  else if sampleVar prices > volatilityThreshold ^ 2 * (listMean prices) ^ 2 then .VOLATILE
  else .STABLE

/-- Strategy configuration (spec §9: thresholds and windows are passed in
explicitly; §4.3 gives the example values 3/7, 5.0 and 0.05). -/
structure StrategyConfig where
  shortW : Nat
  longW : Nat
  margin : ℚ
  volThreshold : ℚ
  pctThreshold : ℚ

/-- Modelled from the spec: the fixed strategy precedence of §4.3/§4.5 —
volatility first, then moving-average, percentage-change as fallback when
the moving average is inconclusive. -/
def trendChain (cfg : StrategyConfig) (prices : List ℚ) : TrendDirection :=
  if volDirection cfg.volThreshold prices = .VOLATILE then .VOLATILE
  else
    let ma := maDirection cfg.shortW cfg.longW cfg.margin prices
    if ma ≠ .STABLE then ma else pctDirection cfg.pctThreshold prices

/-- Modelled from the spec: the numeric core of the `PriceAnalysis` output
record (spec §3); product identity, recommendation text and timestamps are
orthogonal to the claims below. -/
structure PriceAnalysis where
  currentPrice : ℚ
  previousPrice : ℚ
  averagePrice : ℚ
  minimumPrice : ℚ
  maximumPrice : ℚ
  priceChangeAmount : ℚ
  priceChangePercent : ℚ
  trendDirection : TrendDirection
  alertLevel : AlertLevel
  dataPointsCount : Nat
deriving DecidableEq

/-- Failure of `PriceAnalyzer.analyze` (spec §7: `InsufficientDataError`). -/
inductive AnalyzeFailure
  | insufficientData
deriving DecidableEq

/-- Modelled from the spec: `PriceAnalyzer.analyze` of the missing
`analyzer.py`, spec §4.5: error on an empty series; otherwise current =
last value, previous = second-to-last (current itself for a one-point
series), percent change 0 when the previous price is 0, statistics over the
whole series, trend from the precedence chain, alert from the ladder. -/
def analyze (cfg : StrategyConfig) (prices : List ℚ) :
    Except AnalyzeFailure PriceAnalysis :=
  match prices with
  | [] => .error .insufficientData
  | p :: rest =>
    let series := p :: rest
    let current := series.getLastD p
    let previous := if rest = [] then current else series.dropLast.getLastD p
    let changeAmount := current - previous
    let changePercent := if previous = 0 then 0 else changeAmount / previous * 100
    let avg := listMean series
    let minP := rest.foldl min p
    let maxP := rest.foldl max p
    .ok
      { currentPrice := current
        previousPrice := previous
        averagePrice := avg
        minimumPrice := minP
        maximumPrice := maxP
        priceChangeAmount := changeAmount
        priceChangePercent := changePercent
        trendDirection := trendChain cfg series
        alertLevel := determineAlertLevel changePercent current avg minP maxP
        dataPointsCount := series.length }

/-- A naive Python `datetime.datetime` (the repository's `ProductInfo` in
`src/scraper.py` uses `datetime.now()`, which is naive). -/
structure PyDateTime where
  year : Nat
  month : Nat
  day : Nat
  hour : Nat
  minute : Nat
  second : Nat
  microsecond : Nat
deriving DecidableEq

/-- Field ranges of a constructible `datetime.datetime`. -/
def PyDateTime.valid (d : PyDateTime) : Prop :=
  1 ≤ d.year ∧ d.year ≤ 9999 ∧ 1 ≤ d.month ∧ d.month ≤ 12 ∧ 1 ≤ d.day ∧ d.day ≤ 31 ∧
    d.hour ≤ 23 ∧ d.minute ≤ 59 ∧ d.second ≤ 59 ∧ d.microsecond ≤ 999999

instance (d : PyDateTime) : Decidable d.valid := by unfold PyDateTime.valid; infer_instance

def digitChar (n : Nat) : Char := Char.ofNat (48 + n)

def digitVal (c : Char) : Nat := c.toNat - 48

/-- Two-digit zero-padded decimal rendering. -/
def pad2 (n : Nat) : List Char := [digitChar (n / 10), digitChar (n % 10)]

/-- Four-digit zero-padded decimal rendering. -/
def pad4 (n : Nat) : List Char :=
  [digitChar (n / 1000), digitChar (n / 100 % 10), digitChar (n / 10 % 10), digitChar (n % 10)]

/-- Six-digit zero-padded decimal rendering. -/
def pad6 (n : Nat) : List Char :=
  [digitChar (n / 100000), digitChar (n / 10000 % 10), digitChar (n / 1000 % 10),
    digitChar (n / 100 % 10), digitChar (n / 10 % 10), digitChar (n % 10)]

/-- Python `datetime.isoformat()` for a naive datetime:
`YYYY-MM-DDTHH:MM:SS`, followed by `.ffffff` only when the microsecond
field is non-zero. -/
def isoformat (d : PyDateTime) : List Char :=
  pad4 d.year ++ '-' :: pad2 d.month ++ '-' :: pad2 d.day ++
    'T' :: pad2 d.hour ++ ':' :: pad2 d.minute ++ ':' :: pad2 d.second ++
    (if d.microsecond = 0 then [] else '.' :: pad6 d.microsecond)

/-- Python `datetime.fromisoformat` restricted to the two shapes
`isoformat` produces (date, `T`-separated full time, optional 6-digit
fraction) — the only strings the embedded `from_dict` feeds it, since every
`timestamp` entry it parses was written by `to_dict`.  Python accepts any
single separator character in place of `T` and validates the field ranges,
raising `ValueError` on violation; `none` models the raise. -/
def fromisoformat (s : List Char) : Option PyDateTime :=
  match s with
  | y1 :: y2 :: y3 :: y4 :: '-' :: mo1 :: mo2 :: '-' :: d1 :: d2 ::
      _sep :: h1 :: h2 :: ':' :: mi1 :: mi2 :: ':' :: s1 :: s2 :: rest =>
    if allDigits [y1, y2, y3, y4, mo1, mo2, d1, d2, h1, h2, mi1, mi2, s1, s2] then
      let y := digitVal y1 * 1000 + digitVal y2 * 100 + digitVal y3 * 10 + digitVal y4
      let mo := digitVal mo1 * 10 + digitVal mo2
      let da := digitVal d1 * 10 + digitVal d2
      let h := digitVal h1 * 10 + digitVal h2
      let mi := digitVal mi1 * 10 + digitVal mi2
      let se := digitVal s1 * 10 + digitVal s2
      let frac : Option Nat :=
        match rest with
        | [] => some 0
        | '.' :: f1 :: f2 :: f3 :: f4 :: f5 :: f6 :: [] =>
          if allDigits [f1, f2, f3, f4, f5, f6] then
            some (digitVal f1 * 100000 + digitVal f2 * 10000 + digitVal f3 * 1000 +
              digitVal f4 * 100 + digitVal f5 * 10 + digitVal f6)
          else none
        | _ => none
      match frac with
      | some us =>
        let d : PyDateTime := ⟨y, mo, da, h, mi, se, us⟩
        if d.valid then some d else none
      | none => none
    else none
  | _ => none

/-- Dictionary values occurring in `ProductInfo.to_dict` output: strings
and numbers (`None`-valued fields are dropped before this point). -/
inductive DVal
  | str (s : String)
  | num (q : ℚ)
deriving DecidableEq

/-- A Python dict as an association list. -/
abbrev PDict := List (String × DVal)

/-- Python `dict` key access returning `None`-like absence. -/
def plookup (k : String) : PDict → Option DVal
  | [] => none
  | (k', v) :: rest => if k' = k then some v else plookup k rest

/-- `ProductInfo` (src/scraper.py:36-63).  Python floats are embedded as
`ℚ`; defaults are those of the dataclass. -/
structure ProductInfo where
  name : String
  current_price : ℚ
  original_price : Option ℚ := none
  url : String := ""
  site : String := ""
  currency : String := "TRY"
  stock_status : String := "Unknown"
  product_id : Option String := none
  timestamp : PyDateTime
  image_url : Option String := none
  category : Option String := none
deriving DecidableEq

/-- Optional dict entry: present only when the field is not `None`. -/
def optEntry (k : String) (v : Option DVal) : PDict :=
  match v with
  | some x => [(k, x)]
  | none => []

/-- `ProductInfo.to_dict` (src/scraper.py:52-56): `asdict`, timestamp
rendered with `isoformat()`, then every `None`-valued entry dropped. -/
def toDict (p : ProductInfo) : PDict :=
  [("name", .str p.name), ("current_price", .num p.current_price)] ++
    optEntry "original_price" (p.original_price.map .num) ++
    [("url", .str p.url), ("site", .str p.site), ("currency", .str p.currency),
      ("stock_status", .str p.stock_status)] ++
    optEntry "product_id" (p.product_id.map .str) ++
    [("timestamp", .str ⟨isoformat p.timestamp⟩)] ++
    optEntry "image_url" (p.image_url.map .str) ++
    optEntry "category" (p.category.map .str)

/-- `ProductInfo.from_dict` (src/scraper.py:58-63): parse a string
`timestamp` with `fromisoformat`, keep only annotated keys, and construct
the dataclass, missing keys falling back to the field defaults.  `none`
models the exceptions Python raises on that path (`ValueError` from
`fromisoformat`, `TypeError` when `name`, `current_price` or `timestamp`
is missing — the dataclass has no defaults for `name`/`current_price`, and
a missing `timestamp` would call the `datetime.now` default factory, which
a pure embedding cannot represent; `to_dict` output always carries all
three).  A `str`/`num` mismatch on a required field would make Python
build an ill-typed dataclass; such dicts are not produced by `to_dict` and
are mapped to `none`. -/
def fromDict (d : PDict) : Option ProductInfo :=
  match plookup "name" d, plookup "current_price" d, plookup "timestamp" d with
  | some (.str nm), some (.num cp), some (.str ts) =>
    match fromisoformat ts.toList with
    | some t =>
      some
        { name := nm
          current_price := cp
          original_price :=
            match plookup "original_price" d with
            | some (.num v) => some v
            | _ => none
          url := match plookup "url" d with | some (.str v) => v | _ => ""
          site := match plookup "site" d with | some (.str v) => v | _ => ""
          currency := match plookup "currency" d with | some (.str v) => v | _ => "TRY"
          stock_status :=
            match plookup "stock_status" d with | some (.str v) => v | _ => "Unknown"
          product_id :=
            match plookup "product_id" d with
            | some (.str v) => some v
            | _ => none
          timestamp := t
          image_url :=
            match plookup "image_url" d with
            | some (.str v) => some v
            | _ => none
          category :=
            match plookup "category" d with
            | some (.str v) => some v
            | _ => none }
    | none => none
  | _, _, _ => none

theorem digitChar_isDigit {n : Nat} (h : n < 10) : (digitChar n).isDigit = true := by
  interval_cases n <;> decide

theorem digitVal_digitChar {n : Nat} (h : n < 10) : digitVal (digitChar n) = n := by
  interval_cases n <;> decide

/-- `datetime.fromisoformat` is a left inverse of `datetime.isoformat` on
valid datetimes. -/
theorem fromisoformat_isoformat (d : PyDateTime) (h : d.valid) :
    fromisoformat (isoformat d) = some d := by
  obtain ⟨y, mo, da, hh, mi, se, us⟩ := d
  obtain ⟨h1, h2, h3, h4, h5, h6, h7, h8, h9, h10⟩ := h
  dsimp only at h1 h2 h3 h4 h5 h6 h7 h8 h9 h10
  have ey : y / 1000 * 1000 + y / 100 % 10 * 100 + y / 10 % 10 * 10 + y % 10 = y := by omega
  have emo : mo / 10 * 10 + mo % 10 = mo := by omega
  have eda : da / 10 * 10 + da % 10 = da := by omega
  have ehh : hh / 10 * 10 + hh % 10 = hh := by omega
  have emi : mi / 10 * 10 + mi % 10 = mi := by omega
  have ese : se / 10 * 10 + se % 10 = se := by omega
  by_cases hus : us = 0
  · subst hus
    simp only [isoformat, pad4, pad2, pad6, if_pos rfl, List.cons_append, List.nil_append]
    simp only [fromisoformat]
    rw [if_pos]
    · simp only [if_true]
      rw [digitVal_digitChar (by omega), digitVal_digitChar (by omega),
        digitVal_digitChar (by omega), digitVal_digitChar (by omega),
        digitVal_digitChar (by omega), digitVal_digitChar (by omega),
        digitVal_digitChar (by omega), digitVal_digitChar (by omega),
        digitVal_digitChar (by omega), digitVal_digitChar (by omega),
        digitVal_digitChar (by omega), digitVal_digitChar (by omega),
        digitVal_digitChar (by omega), digitVal_digitChar (by omega)]
      rw [ey, emo, eda, ehh, emi, ese]
      rw [if_pos]
      exact ⟨h1, h2, h3, h4, h5, h6, h7, h8, h9, Nat.zero_le _⟩
    · simp only [allDigits, List.all_cons, List.all_nil, Bool.and_eq_true]
      exact ⟨digitChar_isDigit (by omega), digitChar_isDigit (by omega),
        digitChar_isDigit (by omega), digitChar_isDigit (by omega),
        digitChar_isDigit (by omega), digitChar_isDigit (by omega),
        digitChar_isDigit (by omega), digitChar_isDigit (by omega),
        digitChar_isDigit (by omega), digitChar_isDigit (by omega),
        digitChar_isDigit (by omega), digitChar_isDigit (by omega),
        digitChar_isDigit (by omega), digitChar_isDigit (by omega), trivial⟩
  · simp only [isoformat, pad4, pad2, pad6, if_neg hus, List.cons_append, List.nil_append]
    simp only [fromisoformat]
    rw [if_pos]
    · rw [if_pos]
      · rw [digitVal_digitChar (by omega), digitVal_digitChar (by omega),
          digitVal_digitChar (by omega), digitVal_digitChar (by omega),
          digitVal_digitChar (by omega), digitVal_digitChar (by omega),
          digitVal_digitChar (by omega), digitVal_digitChar (by omega),
          digitVal_digitChar (by omega), digitVal_digitChar (by omega),
          digitVal_digitChar (by omega), digitVal_digitChar (by omega),
          digitVal_digitChar (by omega), digitVal_digitChar (by omega),
          digitVal_digitChar (by omega), digitVal_digitChar (by omega),
          digitVal_digitChar (by omega), digitVal_digitChar (by omega),
          digitVal_digitChar (by omega), digitVal_digitChar (by omega)]
        rw [ey, emo, eda, ehh, emi, ese]
        have eus : us / 100000 * 100000 + us / 10000 % 10 * 10000 + us / 1000 % 10 * 1000 +
            us / 100 % 10 * 100 + us / 10 % 10 * 10 + us % 10 = us := by omega
        rw [eus]
        dsimp only
        rw [if_pos]
        exact ⟨h1, h2, h3, h4, h5, h6, h7, h8, h9, h10⟩
      · simp only [allDigits, List.all_cons, List.all_nil, Bool.and_eq_true]
        exact ⟨digitChar_isDigit (by omega), digitChar_isDigit (by omega),
          digitChar_isDigit (by omega), digitChar_isDigit (by omega),
          digitChar_isDigit (by omega), digitChar_isDigit (by omega), trivial⟩
    · simp only [allDigits, List.all_cons, List.all_nil, Bool.and_eq_true]
      exact ⟨digitChar_isDigit (by omega), digitChar_isDigit (by omega),
        digitChar_isDigit (by omega), digitChar_isDigit (by omega),
        digitChar_isDigit (by omega), digitChar_isDigit (by omega),
        digitChar_isDigit (by omega), digitChar_isDigit (by omega),
        digitChar_isDigit (by omega), digitChar_isDigit (by omega),
        digitChar_isDigit (by omega), digitChar_isDigit (by omega),
        digitChar_isDigit (by omega), digitChar_isDigit (by omega), trivial⟩

/-- `from_dict` undoes `to_dict` on every well-typed `ProductInfo`. -/
theorem fromDict_toDict (p : ProductInfo) (h : p.timestamp.valid) :
    fromDict (toDict p) = some p := by
  obtain ⟨nm, cp, op, purl, psite, cur, ss, pid, ts, iu, cat⟩ := p
  dsimp only at h
  rcases op with _ | op <;> rcases pid with _ | pid <;> rcases iu with _ | iu <;>
      rcases cat with _ | cat <;>
    simp [toDict, optEntry, fromDict, plookup, fromisoformat_isoformat ts h,
      show ∀ l : List Char, (String.mk l).toList = l from fun _ => rfl]

theorem replaceAllGo_map (a b : Char) :
    ∀ (fuel : Nat) (s : List Char), s.length ≤ fuel →
      replaceAllGo [a] [b] fuel s = s.map fun c => if c = a then b else c := by
  intro fuel
  induction fuel with
  | zero =>
    intro s hs
    rw [List.length_eq_zero.mp (Nat.le_zero.mp hs)]
    rfl
  | succ n ih =>
    intro s hs
    cases s with
    | nil => rfl
    | cons c rest =>
      simp only [replaceAllGo, List.map_cons]
      by_cases hc : c = a
      · rw [if_pos ⟨by simp, by simp [hc]⟩]
        simp only [List.length_singleton, List.drop_succ_cons, List.drop_zero,
          List.singleton_append]
        rw [ih rest (by simpa using hs), if_pos hc]
      · rw [if_neg (by simp [hc]), ih rest (by simpa using hs), if_neg hc]

theorem replaceAllGo_del (a : Char) :
    ∀ (fuel : Nat) (s : List Char), s.length ≤ fuel →
      replaceAllGo [a] [] fuel s = s.filter (· ≠ a) := by
  intro fuel
  induction fuel with
  | zero =>
    intro s hs
    rw [List.length_eq_zero.mp (Nat.le_zero.mp hs)]
    rfl
  | succ n ih =>
    intro s hs
    cases s with
    | nil => rfl
    | cons c rest =>
      simp only [replaceAllGo, List.filter_cons]
      by_cases hc : c = a
      · rw [if_pos ⟨by simp, by simp [hc]⟩]
        simp only [List.length_singleton, List.drop_succ_cons, List.drop_zero,
          List.nil_append]
        rw [ih rest (by simpa using hs)]
        simp [hc]
      · rw [if_neg (by simp [hc]), ih rest (by simpa using hs)]
        simp [hc]

theorem replaceAllGo_not_mem (pat' rep : List Char) (a : Char) :
    ∀ (fuel : Nat) (s : List Char), s.length ≤ fuel → a ∉ s →
      replaceAllGo (a :: pat') rep fuel s = s := by
  intro fuel
  induction fuel with
  | zero =>
    intro s hs _
    rw [List.length_eq_zero.mp (Nat.le_zero.mp hs)]
    rfl
  | succ n ih =>
    intro s hs hmem
    cases s with
    | nil => rfl
    | cons c rest =>
      have hc : c ≠ a := fun e => hmem (e ▸ List.mem_cons_self c rest)
      simp only [replaceAllGo]
      rw [if_neg, ih rest (by simpa using hs) (fun m => hmem (List.mem_cons_of_mem c m))]
      rintro ⟨-, htake⟩
      have : c = a := by
        have := congrArg (List.headD · ' ') htake
        simpa using this
      exact hc this

/-- Python `s.replace(a, b)` for one-character patterns is `map`. -/
theorem replaceAll_map (s : List Char) (a b : Char) :
    replaceAll s [a] [b] = s.map fun c => if c = a then b else c :=
  replaceAllGo_map a b s.length s le_rfl

/-- Python `s.replace(a, "")` for one-character patterns is `filter`. -/
theorem replaceAll_del (s : List Char) (a : Char) :
    replaceAll s [a] [] = s.filter (· ≠ a) :=
  replaceAllGo_del a s.length s le_rfl

/-- `s.replace(pat, rep)` is the identity when the first character of `pat`
does not occur in `s`. -/
theorem replaceAll_not_mem (s : List Char) (a : Char) (pat' rep : List Char)
    (h : a ∉ s) : replaceAll s (a :: pat') rep = s :=
  replaceAllGo_not_mem pat' rep a s.length s le_rfl h

theorem splitOnChar_ne_nil (sep : Char) (s : List Char) : splitOnChar sep s ≠ [] := by
  cases s with
  | nil => simp [splitOnChar]
  | cons c rest =>
    simp only [splitOnChar]
    split <;> simp

theorem splitOnChar_headD (sep : Char) (s : List Char) :
    (splitOnChar sep s).headD [] = s.takeWhile (· ≠ sep) := by
  induction s with
  | nil => rfl
  | cons c rest ih =>
    by_cases hc : c = sep
    · simp [splitOnChar, hc]
    · simp only [splitOnChar, if_neg hc, List.headD_cons]
      rw [ih]
      simp [List.takeWhile_cons, hc]

theorem splitOnChar_length (sep : Char) (s : List Char) :
    (splitOnChar sep s).length = countCh sep s + 1 := by
  induction s with
  | nil => rfl
  | cons c rest ih =>
    simp only [splitOnChar, countCh]
    by_cases hc : c = sep
    · simp [hc, ih, Nat.add_comm]
    · obtain ⟨p, r, hr⟩ : ∃ p r, splitOnChar sep rest = p :: r := by
        cases h : splitOnChar sep rest with
        | nil => exact absurd h (splitOnChar_ne_nil sep rest)
        | cons p r => exact ⟨p, r, rfl⟩
      simp [hc, hr, ← ih]

theorem filter_dropWhile_ws (s : List Char) :
    (s.dropWhile wsChar).filter isSepDigit = s.filter isSepDigit := by
  induction s with
  | nil => rfl
  | cons c rest ih =>
    by_cases hc : wsChar c = true
    · have hns : isSepDigit c = false := by
        simp only [wsChar, Bool.or_eq_true, decide_eq_true_eq] at hc
        obtain ((((h | h) | h) | h) | h) | h := hc <;> subst h <;> decide
      simp [List.dropWhile_cons, hc, ih, List.filter_cons, hns]
    · simp [List.dropWhile_cons, hc]

theorem stripWs_filter (s : List Char) :
    (stripWs s).filter isSepDigit = s.filter isSepDigit := by
  unfold stripWs
  rw [List.filter_reverse, filter_dropWhile_ws, List.filter_reverse,
    filter_dropWhile_ws, List.reverse_reverse]

/-- The separator-disambiguation step of `_clean_number`, with the
single-character `str.replace` calls written as `map`/`filter`
(`replaceAll_map`/`replaceAll_del` prove the two forms equal). -/
def sepNormalize (s : List Char) : List Char :=
  if countCh '.' s > 0 ∧ countCh ',' s > 0 then
    if rfindI '.' s < rfindI ',' s then
      (s.filter (· ≠ '.')).map fun c => if c = ',' then '.' else c
    else s.filter (· ≠ ',')
  else if countCh ',' s > 0 then s.map fun c => if c = ',' then '.' else c
  else s

theorem not_mem_filter_sepDigit {a : Char} (ha : isSepDigit a = false) (l : List Char) :
    a ∉ l.filter isSepDigit := fun hm => by
  have hT := List.of_mem_filter hm
  rw [ha] at hT
  exact Bool.noConfusion hT

/-- `_clean_number` in normal form: filter to `[\d.,]`, disambiguate,
convert. -/
theorem cleanNumber_eq (text : List Char) :
    cleanNumber text = pyFloat? (sepNormalize (text.filter isSepDigit)) := by
  simp only [cleanNumber, sepNormalize]
  rw [stripWs_filter,
    replaceAll_not_mem _ _ _ _ (not_mem_filter_sepDigit (by decide) text),
    replaceAll_not_mem _ _ _ _ (not_mem_filter_sepDigit (by decide) text),
    replaceAll_not_mem _ _ _ _ (not_mem_filter_sepDigit (by decide) text),
    replaceAll_del, replaceAll_map, replaceAll_del, replaceAll_map]

theorem firstRun_none (m : List Char) (hm : ∀ c ∈ m, isSepDigit c = false) :
    firstRun m = none := by
  induction m with
  | nil => rfl
  | cons c rest ih =>
    simp only [firstRun, hm c (List.mem_cons_self c rest), Bool.false_eq_true, if_false]
    exact ih fun d hd => hm d (List.mem_cons_of_mem c hd)

theorem takeWhile_append_neg (p : Char → Bool) (m : List Char)
    (hm : ∀ c ∈ m, p c = false) (x : List Char) :
    (x ++ m).takeWhile p = x.takeWhile p := by
  induction x with
  | nil =>
    cases m with
    | nil => rfl
    | cons a rest =>
      simp [List.takeWhile_cons, hm a (List.mem_cons_self a rest)]
  | cons c rest ih =>
    by_cases hc : p c = true
    · simp [List.takeWhile_cons, hc, ih]
    · simp [List.takeWhile_cons, hc]

theorem takeWhile_append_pos (p : Char → Bool) (m t : List Char)
    (hm : ∀ c ∈ m, p c = true) :
    (m ++ t).takeWhile p = m ++ t.takeWhile p := by
  induction m with
  | nil => rfl
  | cons c rest ih =>
    simp only [List.cons_append, List.takeWhile_cons, hm c (List.mem_cons_self c rest), if_true]
    rw [ih fun d hd => hm d (List.mem_cons_of_mem c hd)]

theorem firstRun_append_left (m t : List Char) (hm : ∀ c ∈ m, isSepDigit c = false) :
    firstRun (m ++ t) = firstRun t := by
  induction m with
  | nil => rfl
  | cons c rest ih =>
    simp only [List.cons_append, firstRun, hm c (List.mem_cons_self c rest),
      Bool.false_eq_true, if_false]
    exact ih fun d hd => hm d (List.mem_cons_of_mem c hd)

theorem firstRun_append_right (t m : List Char) (hm : ∀ c ∈ m, isSepDigit c = false) :
    firstRun (t ++ m) = firstRun t := by
  induction t with
  | nil => simpa using firstRun_none m hm
  | cons c rest ih =>
    by_cases hc : isSepDigit c = true
    · simp only [List.cons_append, firstRun, hc, if_true, List.append_eq]
      rw [takeWhile_append_neg isSepDigit m hm rest]
    · simp only [List.cons_append, firstRun, hc, if_false]
      exact ih

theorem findallGo_head (fuel : Nat) :
    ∀ s : List Char, s.length ≤ fuel →
      (findallGo isSepDigit fuel s).head? = firstRun s := by
  induction fuel with
  | zero =>
    intro s hs
    rw [List.length_eq_zero.mp (Nat.le_zero.mp hs)]
    rfl
  | succ n ih =>
    intro s hs
    cases s with
    | nil => rfl
    | cons c rest =>
      by_cases hc : isSepDigit c = true
      · simp [findallGo, firstRun, hc]
      · simp only [findallGo, firstRun, hc, Bool.false_eq_true, if_false]
        exact ih rest (by simpa using hs)

theorem findallRuns_head (s : List Char) :
    (findallRuns isSepDigit s).head? = firstRun s :=
  findallGo_head s.length s le_rfl

/-- The findall strategy never adds anything beyond the regex strategy:
`re.findall`'s first hit is `re.search`'s hit. -/
theorem extractWithFindall_eq (t : List Char) :
    extractWithFindall t = extractWithRegex t := by
  unfold extractWithFindall extractWithRegex
  cases hl : findallRuns isSepDigit t with
  | nil =>
    have hf : firstRun t = none := by rw [← findallRuns_head t, hl]; rfl
    rw [hf]
  | cons run rest =>
    have hf : firstRun t = some run := by rw [← findallRuns_head t, hl]; rfl
    rw [hf]

/-- The split strategy normalizes the first space-separated chunk. -/
theorem extractWithSplit_eq (t : List Char) :
    extractWithSplit t = cleanNumber (t.takeWhile (· ≠ ' ')) := by
  unfold extractWithSplit
  cases hl : splitOnChar ' ' t with
  | nil => exact absurd hl (splitOnChar_ne_nil ' ' t)
  | cons part rest =>
    have hp : part = t.takeWhile (· ≠ ' ') := by
      rw [← splitOnChar_headD ' ' t, hl]; rfl
    rw [hp]

/-- `process_price` returns `None` exactly when both the regex strategy and
the split strategy fail (the findall strategy repeats the regex one). -/
theorem processPriceL_none_iff (t : List Char) (d : ℚ) :
    processPriceL t d = none ↔ extractWithRegex t = none ∧ extractWithSplit t = none := by
  unfold processPriceL
  rw [extractWithFindall_eq]
  cases hr : extractWithRegex t <;> cases hs : extractWithSplit t <;> simp

theorem pyFloat?_nonneg {s : List Char} {q : ℚ} (h : pyFloat? s = some q) : 0 ≤ q := by
  unfold pyFloat? at h
  split at h
  · split_ifs at h
    cases h
    rw [Rat.mkRat_eq_div]
    positivity
  · split_ifs at h
    cases h
    rw [Rat.mkRat_eq_div]
    positivity
  · exact absurd h (by simp)

theorem cleanNumber_nonneg {t : List Char} {q : ℚ} (h : cleanNumber t = some q) : 0 ≤ q :=
  pyFloat?_nonneg (cleanNumber_eq t ▸ h)

theorem extractWithRegex_nonneg {t : List Char} {q : ℚ}
    (h : extractWithRegex t = some q) : 0 ≤ q := by
  unfold extractWithRegex at h
  cases hf : firstRun t with
  | none => rw [hf] at h; exact absurd h (by simp)
  | some run => rw [hf] at h; exact cleanNumber_nonneg h

theorem extractWithSplit_nonneg {t : List Char} {q : ℚ}
    (h : extractWithSplit t = some q) : 0 ≤ q := by
  rw [extractWithSplit_eq] at h
  exact cleanNumber_nonneg h

/-- `_clean_number` only depends on the `[\d.,]` characters of its input. -/
theorem cleanNumber_congr_filter {x y : List Char}
    (h : x.filter isSepDigit = y.filter isSepDigit) : cleanNumber x = cleanNumber y := by
  rw [cleanNumber_eq, cleanNumber_eq, h]

theorem filter_takeWhile_eq_nil (p : Char → Bool) (m : List Char)
    (hm : ∀ c ∈ m, isSepDigit c = false) :
    (m.takeWhile p).filter isSepDigit = [] := by
  induction m with
  | nil => rfl
  | cons c rest ih =>
    rw [List.takeWhile_cons]
    by_cases hc : p c = true
    · simp only [hc, if_true, List.filter_cons, hm c (List.mem_cons_self c rest),
        Bool.false_eq_true, if_false]
      exact ih fun d hd => hm d (List.mem_cons_of_mem c hd)
    · simp [hc]

theorem filter_takeWhile_append_right (m : List Char)
    (hm1 : ∀ c ∈ m, isSepDigit c = false) (t : List Char) :
    ((t ++ m).takeWhile (· ≠ ' ')).filter isSepDigit =
      (t.takeWhile (· ≠ ' ')).filter isSepDigit := by
  induction t with
  | nil =>
    rw [List.nil_append, List.takeWhile_nil, List.filter_nil]
    exact filter_takeWhile_eq_nil _ m hm1
  | cons c rest ih =>
    by_cases hc : (decide (c ≠ ' ')) = true
    · simp only [List.cons_append, List.takeWhile_cons, hc, if_true, List.filter_cons]
      rw [ih]
    · have hsp : c = ' ' := by simpa using hc
      simp [List.takeWhile_cons, hsp]

theorem filter_sepDigit_eq_nil (m : List Char) (hm : ∀ c ∈ m, isSepDigit c = false) :
    m.filter isSepDigit = [] := by
  induction m with
  | nil => rfl
  | cons c rest ih =>
    simp only [List.filter_cons, hm c (List.mem_cons_self c rest), Bool.false_eq_true, if_false]
    exact ih fun d hd => hm d (List.mem_cons_of_mem c hd)

theorem extractWithRegex_append_left (m t : List Char)
    (hm : ∀ c ∈ m, isSepDigit c = false) :
    extractWithRegex (m ++ t) = extractWithRegex t := by
  unfold extractWithRegex
  rw [firstRun_append_left m t hm]

theorem extractWithRegex_append_right (t m : List Char)
    (hm : ∀ c ∈ m, isSepDigit c = false) :
    extractWithRegex (t ++ m) = extractWithRegex t := by
  unfold extractWithRegex
  rw [firstRun_append_right t m hm]

theorem extractWithSplit_append_left (m t : List Char)
    (hm1 : ∀ c ∈ m, isSepDigit c = false)
    (hm2 : ∀ c ∈ m, (decide (c ≠ ' ')) = true) :
    extractWithSplit (m ++ t) = extractWithSplit t := by
  rw [extractWithSplit_eq, extractWithSplit_eq, takeWhile_append_pos _ m t hm2]
  exact cleanNumber_congr_filter
    (by rw [List.filter_append, filter_sepDigit_eq_nil m hm1, List.nil_append])

theorem extractWithSplit_append_right (t m : List Char)
    (hm1 : ∀ c ∈ m, isSepDigit c = false) :
    extractWithSplit (t ++ m) = extractWithSplit t := by
  rw [extractWithSplit_eq, extractWithSplit_eq]
  exact cleanNumber_congr_filter (filter_takeWhile_append_right m hm1 t)

theorem processPriceL_congr {x y : List Char} (d : ℚ)
    (h1 : extractWithRegex x = extractWithRegex y)
    (h2 : extractWithSplit x = extractWithSplit y) :
    processPriceL x d = processPriceL y d := by
  unfold processPriceL
  rw [extractWithFindall_eq, extractWithFindall_eq, h1, h2]

/-- The currency markers of the spec (§4.1) and of
`AdvancedPriceProcessor.currency_symbols` / `PriceValidatorImpl.normalize_price`. -/
def currencyMarkers : List String := ["₺", "TL", "$", "€", "£", "USD", "EUR"]

theorem currencyMarkers_chars :
    ∀ m ∈ currencyMarkers, ∀ c ∈ m.toList, isSepDigit c = false ∧ (decide (c ≠ ' ')) = true := by
  decide

/-- `process_price` is invariant under concatenating a currency-marker-like
string (no digits, separators or spaces) on either side. -/
theorem processPriceL_marker_invariant (t m : List Char)
    (hm1 : ∀ c ∈ m, isSepDigit c = false)
    (hm2 : ∀ c ∈ m, (decide (c ≠ ' ')) = true) (d : ℚ) :
    processPriceL (m ++ t) d = processPriceL t d ∧
      processPriceL (t ++ m) d = processPriceL t d :=
  ⟨processPriceL_congr d (extractWithRegex_append_left m t hm1)
      (extractWithSplit_append_left m t hm1 hm2),
    processPriceL_congr d (extractWithRegex_append_right t m hm1)
      (extractWithSplit_append_right t m hm1)⟩

theorem string_toList_append (a b : String) : (a ++ b).toList = a.toList ++ b.toList := by
  simp [String.toList]

theorem firstRun_sepDigit {text t : List Char} (h : firstRun text = some t) :
    ∀ c ∈ t, isSepDigit c = true := by
  induction text with
  | nil => cases h
  | cons c rest ih =>
    by_cases hc : isSepDigit c = true
    · rw [firstRun, if_pos hc] at h
      cases h
      intro d hd
      rcases List.mem_cons.mp hd with rfl | hd'
      · exact hc
      · exact List.mem_takeWhile_imp hd'
    · rw [firstRun, if_neg hc] at h
      exact ih h

/-- On an all-`[\d.,]` token (as produced by the run extraction),
`_clean_number` is exactly disambiguation followed by conversion. -/
theorem cleanNumber_of_sepDigit {t : List Char} (ht : ∀ c ∈ t, isSepDigit c = true) :
    cleanNumber t = pyFloat? (sepNormalize t) := by
  rw [cleanNumber_eq, List.filter_eq_self.mpr ht]

theorem countCh_eq_zero_iff (c : Char) (s : List Char) :
    countCh c s = 0 ↔ c ∉ s := by
  induction s with
  | nil => simp [countCh]
  | cons a rest ih =>
    rw [countCh, List.mem_cons, not_or]
    constructor
    · intro h
      have h1 : (if a = c then 1 else 0) = 0 ∧ countCh c rest = 0 := by omega
      refine ⟨fun e => ?_, ih.mp h1.2⟩
      rw [if_pos e.symm] at h1
      exact one_ne_zero h1.1
    · rintro ⟨h1, h2⟩
      rw [if_neg fun e => h1 e.symm, ih.mpr h2]

theorem map_comma_id {t : List Char} (h : countCh ',' t = 0) :
    (t.map fun c => if c = ',' then '.' else c) = t := by
  have hmem := (countCh_eq_zero_iff ',' t).mp h
  induction t with
  | nil => rfl
  | cons a rest ih =>
    simp only [List.map_cons]
    have ha : ¬a = ',' := fun e => hmem (e ▸ List.mem_cons_self a rest)
    rw [if_neg ha, ih ?_ fun hr => hmem (List.mem_cons_of_mem a hr)]
    simp only [countCh] at h
    omega

theorem countCh_dot_map (t : List Char) :
    countCh '.' (t.map fun c => if c = ',' then '.' else c) =
      countCh '.' t + countCh ',' t := by
  induction t with
  | nil => rfl
  | cons c rest ih =>
    simp only [List.map_cons, countCh]
    by_cases hc : c = ','
    · subst hc
      simp [ih]
      try omega
    · by_cases hd : c = '.'
      · subst hd
        simp [ih]
        try omega
      · simp [hc, hd, ih]
        try omega

/-- C1: on every input whose extracted numeric token (the first maximal
`[\d,.]` run) contains both `.` and `,`, `_clean_number` treats the
separator whose last occurrence comes later as the decimal separator
(rewriting each of its occurrences to `.`) and deletes every occurrence of
the other one; with only `,` present the comma is the decimal separator
(each occurrence rewritten to `.`); with only `.` present the token is
converted as is.  Concretely `parse("1.000,99") = 1000.99`,
`parse("1,000.99") = 1000.99`, `parse("50.99") = 50.99`,
`parse("100,50") = 100.50`, and `parse("1.234.567,89") = 1234567.89`. -/
theorem C1_separator_disambiguation :
    (∀ text t : List Char, firstRun text = some t →
      (countCh '.' t > 0 → countCh ',' t > 0 →
        (rfindI '.' t < rfindI ',' t →
          cleanNumber t =
            pyFloat? ((t.filter (· ≠ '.')).map fun c => if c = ',' then '.' else c)) ∧
        (rfindI ',' t < rfindI '.' t →
          cleanNumber t = pyFloat? (t.filter (· ≠ ',')))) ∧
      (countCh '.' t = 0 → countCh ',' t > 0 →
        cleanNumber t = pyFloat? (t.map fun c => if c = ',' then '.' else c)) ∧
      (countCh ',' t = 0 → cleanNumber t = pyFloat? t)) ∧
    processPrice "1.000,99" 0 = some (1000.99 : ℚ) ∧
    processPrice "1,000.99" 0 = some (1000.99 : ℚ) ∧
    processPrice "50.99" 0 = some (50.99 : ℚ) ∧
    processPrice "100,50" 0 = some (100.50 : ℚ) ∧
    processPrice "1.234.567,89" 0 = some (1234567.89 : ℚ) := by
  refine ⟨?_, ?_, ?_, ?_, ?_, ?_⟩
  · intro text t h
    have ht := firstRun_sepDigit h
    rw [cleanNumber_of_sepDigit ht]
    refine ⟨fun h1 h2 => ⟨fun h3 => ?_, fun h3 => ?_⟩, fun h1 h2 => ?_, fun h1 => ?_⟩
    · unfold sepNormalize
      rw [if_pos ⟨h1, h2⟩, if_pos h3]
    · unfold sepNormalize
      rw [if_pos ⟨h1, h2⟩, if_neg (lt_asymm h3)]
    · unfold sepNormalize
      rw [if_neg (by omega), if_pos h2]
    · unfold sepNormalize
      rw [if_neg (by omega), if_neg (by omega)]
  · have h : processPrice "1.000,99" 0 = some (mkRat 100099 100) := by decide
    rw [h, show (1000.99 : ℚ) = mkRat 100099 100 by rw [Rat.mkRat_eq_div]; norm_num]
  · have h : processPrice "1,000.99" 0 = some (mkRat 100099 100) := by decide
    rw [h, show (1000.99 : ℚ) = mkRat 100099 100 by rw [Rat.mkRat_eq_div]; norm_num]
  · have h : processPrice "50.99" 0 = some (mkRat 5099 100) := by decide
    rw [h, show (50.99 : ℚ) = mkRat 5099 100 by rw [Rat.mkRat_eq_div]; norm_num]
  · have h : processPrice "100,50" 0 = some (mkRat 10050 100) := by decide
    rw [h, show (100.50 : ℚ) = mkRat 10050 100 by rw [Rat.mkRat_eq_div]; norm_num]
  · have h : processPrice "1.234.567,89" 0 = some (mkRat 123456789 100) := by decide
    rw [h, show (1234567.89 : ℚ) = mkRat 123456789 100 by rw [Rat.mkRat_eq_div]; norm_num]

theorem C1_separator_disambiguation_witness :
    firstRun "x1.000,99y".toList = some "1.000,99".toList ∧
    countCh '.' "1.000,99".toList > 0 ∧ countCh ',' "1.000,99".toList > 0 ∧
    rfindI '.' "1.000,99".toList < rfindI ',' "1.000,99".toList ∧
    cleanNumber "1.000,99".toList =
      pyFloat? (("1.000,99".toList.filter (· ≠ '.')).map fun c => if c = ',' then '.' else c) :=
  ⟨by decide, by decide, by decide, by decide,
    ((C1_separator_disambiguation.1 "x1.000,99y".toList "1.000,99".toList
        (by decide)).1 (by decide) (by decide)).1 (by decide)⟩

/-- C2 counterexample: on `".a5"` the first `[\d,.]` run is `"."`, whose
normalization fails — yet `process_price` returns `0.5`, because the
whitespace-split fallback strategy normalizes the whole chunk `".a5"`
(stripping the letter) instead of the extracted token.  So "returns None
exactly when no digit run is found or the normalized token cannot be
converted" fails as stated. -/
theorem C2_process_price_counterexample :
    processPrice ".a5" 0 = some (0.5 : ℚ) ∧
    firstRun ".a5".toList = some ['.'] ∧
    cleanNumber ['.'] = none := by
  refine ⟨?_, by decide, by decide⟩
  have h : processPrice ".a5" 0 = some (mkRat 5 10) := by decide
  rw [h, show (0.5 : ℚ) = mkRat 5 10 by rw [Rat.mkRat_eq_div]; norm_num]

/-- C2 (amended): `process_price` is total with an `Option` result (never an
exception) and returns `None` exactly when the first `[\d,.]` run is absent
or fails to normalize AND the first whitespace-separated chunk also fails
to normalize (the findall strategy repeats the regex strategy and adds
nothing). -/
theorem C2_process_price_none_characterization (text : List Char) (d : ℚ) :
    processPriceL text d = none ↔
      ((firstRun text).bind cleanNumber = none ∧
        cleanNumber (text.takeWhile (· ≠ ' ')) = none) := by
  have hr : extractWithRegex text = (firstRun text).bind cleanNumber := by
    unfold extractWithRegex
    cases firstRun text <;> rfl
  rw [processPriceL_none_iff, hr, extractWithSplit_eq]

/-- C3 counterexample: a negative discount is **guarded** (`discount > 0`),
so `process_price("200 TL", discount=-10)` returns the parsed value `200`
unchanged — the formula `v * (1 - d/100)`, which would give `220 > 200`,
is not applied. -/
theorem C3_negative_discount_counterexample :
    advProcessPrice "200 TL" (-10) = some (200 : ℚ) ∧
    (200 : ℚ) * (1 - (-10) / 100) = 220 ∧
    ¬ advProcessPrice "200 TL" (-10) = some ((200 : ℚ) * (1 - (-10) / 100)) := by
  have h : processPriceL "200 TL".toList 0 = some (mkRat 200 1) := by decide
  have h2 : advProcessPrice "200 TL" (-10) = some (200 : ℚ) := by
    unfold advProcessPrice advProcessPriceL
    rw [h]
    norm_num [Rat.mkRat_eq_div]
  refine ⟨h2, by norm_num, ?_⟩
  rw [h2]
  intro hcon
  rw [Option.some.injEq] at hcon
  norm_num at hcon

/-- C3 (amended): for every price text and every negative
`discount_percent`, `AdvancedPriceProcessor.process_price` skips the
adjustment entirely (the `discount > 0` guard) and returns exactly the
undiscounted parse result. -/
theorem C3_negative_discount_noop (text : List Char) (d : ℚ) (hd : d < 0) :
    advProcessPriceL text d = processPriceL text 0 := by
  unfold advProcessPriceL
  cases processPriceL text 0 with
  | none => rfl
  | some p =>
    dsimp only
    rw [if_neg (not_lt.mpr hd.le)]

theorem C3_negative_discount_noop_witness :
    (-10 : ℚ) < 0 ∧
    advProcessPriceL "200 TL".toList (-10) = processPriceL "200 TL".toList 0 :=
  ⟨by norm_num, C3_negative_discount_noop "200 TL".toList (-10) (by norm_num)⟩

/-- C4 counterexample: the two `_clean_number` implementations disagree on
`"1.000,99"`: `scraper.py` yields `1000.99`, while `data_manager.py` first
rewrites every `,` to `.` and then keeps the **first** dot as the decimal
point (`"1.000.99"` → `"1.00099"`), yielding `1.00099`. -/
theorem C4_two_cleaners_counterexample :
    cleanNumber "1.000,99".toList = some (1000.99 : ℚ) ∧
    dmCleanNumber "1.000,99".toList = some (1.00099 : ℚ) ∧
    ¬ (1000.99 : ℚ) = (1.00099 : ℚ) := by
  refine ⟨?_, ?_, by norm_num⟩
  · have h : cleanNumber "1.000,99".toList = some (mkRat 100099 100) := by decide
    rw [h, show (1000.99 : ℚ) = mkRat 100099 100 by rw [Rat.mkRat_eq_div]; norm_num]
  · have h : dmCleanNumber "1.000,99".toList = some (mkRat 100099 100000) := by decide
    rw [h, show (1.00099 : ℚ) = mkRat 100099 100000 by rw [Rat.mkRat_eq_div]; norm_num]

/-- C4 (amended): the two implementations agree on every token of digits,
dots and commas that contains at most one separator character in total
(bare integers, `50.99`, `100,50`, …); they diverge on thousands-grouped
tokens such as `1.000,99`. -/
theorem C4_clean_number_agree (t : List Char)
    (hall : ∀ c ∈ t, isSepDigit c = true)
    (hsep : countCh '.' t + countCh ',' t ≤ 1) :
    cleanNumber t = dmCleanNumber t := by
  have hspace : ' ' ∉ (t.map fun c => if c = ',' then '.' else c) := by
    intro hm
    rcases List.mem_map.mp hm with ⟨a, ha, hae⟩
    by_cases h : a = ','
    · rw [if_pos h] at hae
      exact absurd hae (by decide)
    · rw [if_neg h] at hae
      subst hae
      exact absurd (hall _ ha) (by decide)
  simp only [dmCleanNumber]
  rw [replaceAll_map, replaceAll_not_mem _ _ _ _ hspace]
  have hlen : (splitOnChar '.' (t.map fun c => if c = ',' then '.' else c)).length ≤ 2 := by
    rw [splitOnChar_length, countCh_dot_map]
    omega
  rw [if_neg (by omega)]
  rw [cleanNumber_of_sepDigit hall]
  unfold sepNormalize
  by_cases hc : countCh ',' t = 0
  · rw [if_neg (by omega), if_neg (by omega), map_comma_id hc]
  · rw [if_neg (by omega), if_pos (by omega)]

theorem C4_clean_number_agree_witness :
    (∀ c ∈ "50.99".toList, isSepDigit c = true) ∧
    countCh '.' "50.99".toList + countCh ',' "50.99".toList ≤ 1 ∧
    cleanNumber "50.99".toList = dmCleanNumber "50.99".toList :=
  ⟨by decide, by decide, C4_clean_number_agree "50.99".toList (by decide) (by decide)⟩

/-- C5: the alert classifier is a deterministic first-match threshold
ladder: `≤ -20` → CRITICAL_DROP; else `≤ -10` → GOOD_DEAL; else `|change|
≤ 5` with the current price within 10% of the average → FAIR_PRICE; else
`≥ 20` → OVERPRICED; otherwise SLIGHT_INCREASE.  The three concrete cases
are those of `src/Tests/test_analyzer.py` (TestAlertLevelDetermination). -/
theorem C5_alert_ladder :
    (∀ cp cur avg mn mx : ℚ, cp ≤ -20 →
      determineAlertLevel cp cur avg mn mx = .CRITICAL_DROP) ∧
    (∀ cp cur avg mn mx : ℚ, -20 < cp → cp ≤ -10 →
      determineAlertLevel cp cur avg mn mx = .GOOD_DEAL) ∧
    (∀ cp cur avg mn mx : ℚ, |cp| ≤ 5 → |cur - avg| ≤ avg * (10 / 100) →
      determineAlertLevel cp cur avg mn mx = .FAIR_PRICE) ∧
    (∀ cp cur avg mn mx : ℚ, 20 ≤ cp →
      determineAlertLevel cp cur avg mn mx = .OVERPRICED) ∧
    (∀ cp cur avg mn mx : ℚ, -10 < cp → cp < 20 →
      ¬(|cp| ≤ 5 ∧ |cur - avg| ≤ avg * (10 / 100)) →
      determineAlertLevel cp cur avg mn mx = .SLIGHT_INCREASE) ∧
    determineAlertLevel (-25) 75 100 70 150 = .CRITICAL_DROP ∧
    determineAlertLevel (-15) 85 100 80 120 = .GOOD_DEAL ∧
    determineAlertLevel 2 102 100 90 110 = .FAIR_PRICE := by
  refine ⟨?_, ?_, ?_, ?_, ?_, ?_, ?_, ?_⟩
  · intro cp cur avg mn mx h1
    unfold determineAlertLevel
    rw [if_pos h1]
  · intro cp cur avg mn mx h1 h2
    unfold determineAlertLevel
    rw [if_neg (by linarith), if_pos h2]
  · intro cp cur avg mn mx h1 h2
    have := abs_le.mp h1
    unfold determineAlertLevel
    rw [if_neg (by linarith), if_neg (by linarith), if_pos ⟨h1, h2⟩]
  · intro cp cur avg mn mx h1
    unfold determineAlertLevel
    rw [if_neg (by linarith), if_neg (by linarith), if_neg, if_pos h1]
    rintro ⟨ha, -⟩
    have := abs_le.mp ha
    linarith
  · intro cp cur avg mn mx h1 h2 h3
    unfold determineAlertLevel
    rw [if_neg (by linarith), if_neg (by linarith), if_neg h3, if_neg (by linarith)]
  · unfold determineAlertLevel
    norm_num
  · unfold determineAlertLevel
    norm_num
  · unfold determineAlertLevel
    norm_num

theorem C5_alert_ladder_witness :
    ((-30 : ℚ) ≤ -20 ∧ determineAlertLevel (-30) 70 100 60 140 = .CRITICAL_DROP) ∧
    ((-20 : ℚ) < -12 ∧ (-12 : ℚ) ≤ -10 ∧
      determineAlertLevel (-12) 88 100 80 120 = .GOOD_DEAL) ∧
    ((20 : ℚ) ≤ 25 ∧ determineAlertLevel 25 125 100 90 130 = .OVERPRICED) :=
  ⟨⟨by norm_num, C5_alert_ladder.1 (-30) 70 100 60 140 (by norm_num)⟩,
    ⟨by norm_num, by norm_num,
      C5_alert_ladder.2.1 (-12) 88 100 80 120 (by norm_num) (by norm_num)⟩,
    ⟨by norm_num, C5_alert_ladder.2.2.2.1 25 125 100 90 130 (by norm_num)⟩⟩

/-- C6: a zero (or omitted) discount is the identity on the parsed value,
and a 10% discount on a text parsing to 200 yields 180. -/
theorem C6_zero_discount_identity :
    (∀ (text : List Char) (x : ℚ), processPriceL text 0 = some x →
      advProcessPriceL text 0 = some x) ∧
    advProcessPrice "200 TL" 10 = some (180 : ℚ) := by
  constructor
  · intro text x h
    unfold advProcessPriceL
    rw [h]
    dsimp only
    rw [if_neg (lt_irrefl (0 : ℚ))]
  · have h : processPriceL "200 TL".toList 0 = some (mkRat 200 1) := by decide
    unfold advProcessPrice advProcessPriceL
    rw [h]
    norm_num [Rat.mkRat_eq_div]

theorem C6_zero_discount_identity_witness :
    processPriceL "100,50 TL".toList 0 = some (mkRat 10050 100) ∧
    advProcessPriceL "100,50 TL".toList 0 = some (mkRat 10050 100) :=
  ⟨by decide, C6_zero_discount_identity.1 "100,50 TL".toList _ (by decide)⟩

/-- C7: prefixing or suffixing a price text with any of the known currency
markers (₺, TL, $, €, £, USD, EUR) does not change the parse result;
in particular `parse("₺150,75") = parse("150,75")`. -/
theorem C7_currency_marker_invariance :
    (∀ text : String, ∀ m ∈ currencyMarkers,
      processPrice (m ++ text) 0 = processPrice text 0 ∧
      processPrice (text ++ m) 0 = processPrice text 0) ∧
    processPrice "₺150,75" 0 = processPrice "150,75" 0 := by
  constructor
  · intro text m hm
    have hchars := currencyMarkers_chars m hm
    have h1 : ∀ c ∈ m.toList, isSepDigit c = false := fun c hc => (hchars c hc).1
    have h2 : ∀ c ∈ m.toList, (decide (c ≠ ' ')) = true := fun c hc => (hchars c hc).2
    unfold processPrice
    rw [string_toList_append, string_toList_append]
    exact processPriceL_marker_invariant text.toList m.toList h1 h2 0
  · decide

theorem C7_currency_marker_invariance_witness :
    "₺" ∈ currencyMarkers ∧
    processPrice ("₺" ++ "150,75") 0 = processPrice "150,75" 0 :=
  ⟨by decide, (C7_currency_marker_invariance.1 "150,75" "₺" (by decide)).1⟩

/-- C8 counterexample: parsing can succeed with the value 0 — the input
`"0"` parses to `0`, which is not strictly positive.  (Positivity is only
enforced downstream, by the spiders' `current_price <= 0` validation.) -/
theorem C8_positive_counterexample :
    processPrice "0" 0 = some (0 : ℚ) ∧ ¬ (0 : ℚ) > 0 := by
  constructor
  · have h : processPrice "0" 0 = some (mkRat 0 1) := by decide
    rw [h, show (0 : ℚ) = mkRat 0 1 by rw [Rat.mkRat_eq_div]; norm_num]
  · norm_num

/-- C8 (amended): whenever `process_price` (no discount) succeeds, the
value is nonnegative; failure is an absent value, never a negative
placeholder.  Strict positivity does not hold (see the counterexample). -/
theorem C8_parse_nonneg (text : List Char) (v : ℚ)
    (h : processPriceL text 0 = some v) : 0 ≤ v := by
  unfold processPriceL at h
  rw [extractWithFindall_eq] at h
  cases hr : extractWithRegex text with
  | some r =>
    rw [hr] at h
    simp only [lt_irrefl, if_false, Option.some.injEq] at h
    exact h ▸ extractWithRegex_nonneg hr
  | none =>
    rw [hr] at h
    cases hs : extractWithSplit text with
    | some r =>
      rw [hs] at h
      simp only [lt_irrefl, if_false, Option.some.injEq] at h
      exact h ▸ extractWithSplit_nonneg hs
    | none =>
      rw [hs] at h
      cases h

theorem C8_parse_nonneg_witness :
    processPriceL "100,50".toList 0 = some (mkRat 10050 100) ∧
    (0 : ℚ) ≤ mkRat 10050 100 :=
  ⟨by decide, C8_parse_nonneg "100,50".toList _ (by decide)⟩

theorem trendChain_singleton (cfg : StrategyConfig) (p : ℚ)
    (hs : 1 ≤ cfg.shortW) (hl : 1 ≤ cfg.longW) (hm : 0 ≤ cfg.margin)
    (hpct : 0 ≤ cfg.pctThreshold) :
    trendChain cfg [p] = .STABLE := by
  have hvol : volDirection cfg.volThreshold [p] = .STABLE := by
    unfold volDirection
    rw [if_pos (by simp)]
  have hdrop : ∀ w : Nat, 1 ≤ w → ([p] : List ℚ).drop (([p] : List ℚ).length - w) = [p] := by
    intro w hw
    have : ([p] : List ℚ).length - w = 0 := by simp; omega
    rw [this, List.drop_zero]
  have hmean : listMean [p] = p := by
    simp [listMean]
  have hma : maDirection cfg.shortW cfg.longW cfg.margin [p] = .STABLE := by
    unfold maDirection lastN
    rw [hdrop cfg.shortW hs, hdrop cfg.longW hl, hmean]
    dsimp only
    rw [sub_self, zero_div]
    rw [if_neg (not_lt.mpr hm), if_neg (not_lt.mpr (neg_nonpos.mpr hm))]
  have hpc : pctDirection cfg.pctThreshold [p] = .STABLE := by
    unfold pctDirection
    dsimp only
    have hg : ([p] : List ℚ).getLastD p = p := rfl
    rw [hg, sub_self, zero_div, zero_mul]
    rw [if_neg (not_lt.mpr hpct), if_neg (not_lt.mpr (neg_nonpos.mpr hpct))]
  unfold trendChain
  rw [hvol, hma]
  dsimp only
  rw [hpc]
  simp

/-- C9: the analyzer fails with InsufficientDataError exactly on an empty
series; a one-point series (of a positive price, per the PriceSeries
invariant, with positive strategy windows and nonnegative thresholds)
succeeds with previous = current, zero change, STABLE trend and the
neutral FAIR_PRICE alert. -/
theorem C9_analyze_boundary :
    (∀ cfg : StrategyConfig, analyze cfg [] = .error .insufficientData) ∧
    (∀ (cfg : StrategyConfig) (prices : List ℚ), prices ≠ [] →
      ∃ a : PriceAnalysis, analyze cfg prices = .ok a) ∧
    (∀ (cfg : StrategyConfig) (p : ℚ), 0 < p → 1 ≤ cfg.shortW → 1 ≤ cfg.longW →
      0 ≤ cfg.margin → 0 ≤ cfg.pctThreshold →
      analyze cfg [p] = .ok
        { currentPrice := p, previousPrice := p, averagePrice := p,
          minimumPrice := p, maximumPrice := p, priceChangeAmount := 0,
          priceChangePercent := 0, trendDirection := .STABLE,
          alertLevel := .FAIR_PRICE, dataPointsCount := 1 }) := by
  refine ⟨fun cfg => rfl, ?_, ?_⟩
  · intro cfg prices hne
    cases prices with
    | nil => exact absurd rfl hne
    | cons p rest => exact ⟨_, rfl⟩
  · intro cfg p hp hs hl hm hpct
    have e3 : determineAlertLevel 0 p p p p = .FAIR_PRICE := by
      unfold determineAlertLevel
      rw [if_neg (by norm_num), if_neg (by norm_num),
        if_pos ⟨by simp, by rw [sub_self, abs_zero]; positivity⟩]
    unfold analyze
    dsimp only
    have e1 : ([p] : List ℚ).getLastD p = p := rfl
    have e2 : listMean [p] = p := by simp [listMean]
    have e4 : List.foldl min p ([] : List ℚ) = p := rfl
    have e5 : List.foldl max p ([] : List ℚ) = p := rfl
    rw [e1, if_pos rfl, sub_self, if_neg (ne_of_gt hp), zero_div, zero_mul, e2,
      trendChain_singleton cfg p hs hl hm hpct, e4, e5, e3,
      show ([p] : List ℚ).length = 1 from rfl]

theorem C9_analyze_boundary_witness :
    analyze ⟨3, 7, mkRat 1 100, mkRat 5 100, 5⟩ [] = .error .insufficientData ∧
    (0 : ℚ) < 100 ∧
    analyze ⟨3, 7, mkRat 1 100, mkRat 5 100, 5⟩ [100] = .ok
      { currentPrice := 100, previousPrice := 100, averagePrice := 100,
        minimumPrice := 100, maximumPrice := 100, priceChangeAmount := 0,
        priceChangePercent := 0, trendDirection := .STABLE,
        alertLevel := .FAIR_PRICE, dataPointsCount := 1 } ∧
    ((100 : ℚ) :: []) ≠ [] ∧
    (∃ a : PriceAnalysis, analyze ⟨3, 7, mkRat 1 100, mkRat 5 100, 5⟩ [100] = .ok a) := by
  refine ⟨C9_analyze_boundary.1 _, by norm_num, ?_, by simp, ?_⟩
  · exact C9_analyze_boundary.2.2 _ 100 (by norm_num) (by norm_num) (by norm_num)
      (by rw [Rat.mkRat_eq_div]; norm_num) (by norm_num)
  · exact C9_analyze_boundary.2.1 _ [100] (by simp)

/-- C10: `ProductInfo.from_dict ∘ ProductInfo.to_dict` is the identity on
well-typed `ProductInfo` values: `to_dict` drops `None`-valued optional
fields and renders the timestamp as its ISO string, and the round trip
restores every field, timestamp included. -/
theorem C10_to_from_dict_roundtrip :
    ∀ p : ProductInfo, p.timestamp.valid →
      fromDict (toDict p) = some p ∧
      plookup "timestamp" (toDict p) = some (.str ⟨isoformat p.timestamp⟩) ∧
      (p.original_price = none → plookup "original_price" (toDict p) = none) ∧
      (p.product_id = none → plookup "product_id" (toDict p) = none) ∧
      (p.image_url = none → plookup "image_url" (toDict p) = none) ∧
      (p.category = none → plookup "category" (toDict p) = none) := by
  intro p h
  obtain ⟨nm, cp, op, u, si, cu, ss, pid, ts, iu, cat⟩ := p
  rcases op with _ | op <;> rcases pid with _ | pid <;> rcases iu with _ | iu <;>
      rcases cat with _ | cat <;>
    exact ⟨fromDict_toDict _ h, by simp [toDict, optEntry, plookup],
      by simp [toDict, optEntry, plookup], by simp [toDict, optEntry, plookup],
      by simp [toDict, optEntry, plookup], by simp [toDict, optEntry, plookup]⟩

theorem C10_to_from_dict_roundtrip_witness :
    (⟨"Harry Potter", mkRat 5999 100, some (mkRat 7500 100), "http://x", "kitapyurdu",
        "TRY", "In Stock", some "32780", ⟨2024, 5, 1, 12, 30, 45, 123456⟩, none,
        none⟩ : ProductInfo).timestamp.valid ∧
    fromDict (toDict (⟨"Harry Potter", mkRat 5999 100, some (mkRat 7500 100), "http://x",
        "kitapyurdu", "TRY", "In Stock", some "32780", ⟨2024, 5, 1, 12, 30, 45, 123456⟩,
        none, none⟩ : ProductInfo)) =
      some ⟨"Harry Potter", mkRat 5999 100, some (mkRat 7500 100), "http://x", "kitapyurdu",
        "TRY", "In Stock", some "32780", ⟨2024, 5, 1, 12, 30, 45, 123456⟩, none, none⟩ ∧
    plookup "original_price" (toDict (⟨"T", mkRat 1 1, none, "", "", "TRY", "Unknown",
        none, ⟨2024, 1, 1, 0, 0, 0, 0⟩, none, none⟩ : ProductInfo)) = none :=
  ⟨by decide,
    (C10_to_from_dict_roundtrip _ (by decide)).1,
    (C10_to_from_dict_roundtrip
      (⟨"T", mkRat 1 1, none, "", "", "TRY", "Unknown", none, ⟨2024, 1, 1, 0, 0, 0, 0⟩,
        none, none⟩ : ProductInfo) (by decide)).2.2.1 rfl⟩
